import Mathlib

/-!
Shallow embedding of the AnimaApp recommendation engine
(backend/python/recommendation_engine.py).

Modeling conventions:
* Python floats (similarity values, anime scores, overlap ratios) are
  modeled as rationals.
* NumPy `argsort` is modeled as the stable ascending sort of indices
  (deterministic; NumPy's small-array sort is a stable insertion sort);
  `[::-1]` is list reversal.
* Python `list.sort` is stable, modeled by a stable insertion sort.
* The TF-IDF vectorizer, cosine similarity and KMeans are external
  numeric collaborators: functions over them are parameterized by the
  similarity values they produce, exactly at the boundary where the
  source consumes them (`cosine_similarity(...).flatten()`).
-/

/-- Catalog record (Python dataclass `AnimeData`). -/
structure AnimeData where
  id : Int
  title : String
  description : String
  genres : List String
  tags : List String
  score : ℚ
  popularity : Int
deriving Repr, DecidableEq, Inhabited

/-- Stable insertion step: `bf y x = true` means `y` must stay strictly
before `x`; on ties (`bf y x = false`) the inserted element goes first,
which together with `insSortBy`'s right fold makes the sort stable. -/
def insertBy {α : Type} (bf : α → α → Bool) (x : α) : List α → List α
  | [] => [x]
  | y :: ys => if bf y x then y :: insertBy bf x ys else x :: y :: ys

/-- Stable insertion sort: the unique stable sort for the strict
"must come before" relation `bf`. -/
def insSortBy {α : Type} (bf : α → α → Bool) : List α → List α
  | [] => []
  | x :: xs => insertBy bf x (insSortBy bf xs)

theorem insertBy_perm {α : Type} (bf : α → α → Bool) (x : α) :
    ∀ l : List α, List.Perm (insertBy bf x l) (x :: l) := by
  intro l
  induction l with
  | nil => exact List.Perm.refl _
  | cons y ys ih =>
    by_cases h : bf y x = true
    · simp only [insertBy, h, if_true]
      exact List.Perm.trans (List.Perm.cons y ih) (List.Perm.swap x y ys)
    · simp only [insertBy, h, if_false, Bool.false_eq_true]
      exact List.Perm.refl _

theorem insSortBy_perm {α : Type} (bf : α → α → Bool) :
    ∀ l : List α, List.Perm (insSortBy bf l) l := by
  intro l
  induction l with
  | nil => exact List.Perm.refl _
  | cons x xs ih =>
    exact List.Perm.trans (insertBy_perm bf x (insSortBy bf xs)) (List.Perm.cons x ih)

theorem insertBy_pairwise {α : Type} (bf : α → α → Bool)
    (hasym : ∀ a b, bf a b = true → bf b a = false)
    (htrans : ∀ a b c, bf c a = false → bf c b = true → bf a b = true)
    (x : α) :
    ∀ l : List α, l.Pairwise (fun a b => bf b a = false) →
      (insertBy bf x l).Pairwise (fun a b => bf b a = false) := by
  intro l
  induction l with
  | nil =>
    intro _
    simp [insertBy]
  | cons y ys ih =>
    intro hp
    rw [List.pairwise_cons] at hp
    obtain ⟨hy, hys⟩ := hp
    by_cases h : bf y x = true
    · simp only [insertBy, h, if_true]
      rw [List.pairwise_cons]
      refine ⟨?_, ih hys⟩
      intro z hz
      rcases List.mem_cons.mp ((insertBy_perm bf x ys).mem_iff.mp hz) with hzx | hzys
      · exact hzx ▸ hasym y x h
      · exact hy z hzys
    · simp only [insertBy, h, if_false, Bool.false_eq_true]
      rw [List.pairwise_cons]
      refine ⟨?_, List.pairwise_cons.mpr ⟨hy, hys⟩⟩
      intro z hz
      rcases List.mem_cons.mp hz with hzy | hzys
      · exact hzy ▸ (Bool.eq_false_iff.mpr h)
      · cases hzx : bf z x with
        | false => rfl
        | true =>
          have : bf y x = true := htrans y x z (hy z hzys) hzx
          exact absurd this h

theorem insSortBy_pairwise {α : Type} (bf : α → α → Bool)
    (hasym : ∀ a b, bf a b = true → bf b a = false)
    (htrans : ∀ a b c, bf c a = false → bf c b = true → bf a b = true) :
    ∀ l : List α, (insSortBy bf l).Pairwise (fun a b => bf b a = false) := by
  intro l
  induction l with
  | nil => simp [insSortBy]
  | cons x xs ih => exact insertBy_pairwise bf hasym htrans x (insSortBy bf xs) ih

theorem insertBy_filter {α : Type} (bf : α → α → Bool) (p : α → Bool)
    (hp : ∀ a b, p a = true → p b = true → bf a b = false) (x : α) :
    ∀ l : List α, (insertBy bf x l).filter p = (x :: l).filter p := by
  intro l
  induction l with
  | nil => rfl
  | cons y ys ih =>
    by_cases h : bf y x = true
    · simp only [insertBy, h, if_true]
      by_cases hx : p x = true
      · have hyF : p y = false := by
          cases hpy : p y with
          | false => rfl
          | true => exact absurd (hp y x hpy hx) (by simp [h])
        simp [List.filter_cons, hyF, hx, ih]
      · have hxF : p x = false := Bool.eq_false_iff.mpr hx
        simp [List.filter_cons, hxF] at ih ⊢
        simp [ih, hxF]
    · simp only [insertBy, h, if_false, Bool.false_eq_true]

theorem insSortBy_filter {α : Type} (bf : α → α → Bool) (p : α → Bool)
    (hp : ∀ a b, p a = true → p b = true → bf a b = false) :
    ∀ l : List α, (insSortBy bf l).filter p = l.filter p := by
  intro l
  induction l with
  | nil => rfl
  | cons x xs ih =>
    have h1 := insertBy_filter bf p hp x (insSortBy bf xs)
    simp only [insSortBy, h1, List.filter_cons, ih]

/-! String utilities used by the engine. Python strings are modeled through
their character lists (`String.data`). -/

/-- Python prefix test on character lists (`hay.startswith(n)` at the front). -/
def startsWithL : List Char → List Char → Bool
  | [], _ => true
  | _ :: _, [] => false
  | a :: as, b :: bs => a == b && startsWithL as bs

/-- Python substring containment `n in hay` on character lists. -/
def isSubstrList (n : List Char) : List Char → Bool
  | [] => n.isEmpty
  | c :: rest => startsWithL n (c :: rest) || isSubstrList n rest

/-- Split a character list at each space character, keeping empty pieces
(the raw splitting underlying Python `str.split`). -/
def splitSp : List Char → List (List Char)
  | [] => [[]]
  | c :: rest =>
    if c == ' ' then [] :: splitSp rest
    else
      match splitSp rest with
      | [] => [[c]]
      | t :: ts => (c :: t) :: ts

/-- Python `str.split()` (no argument): space-separated words, empty pieces
discarded. -/
def splitWords (l : List Char) : List (List Char) :=
  (splitSp l).filter (fun t => !t.isEmpty)

/-- The joining with single spaces that Python does on character lists. -/
def joinSp : List (List Char) → List Char
  | [] => []
  | [s] => s
  | s :: t :: rest => s ++ ' ' :: joinSp (t :: rest)

/-- The joining with single spaces that Python does on lists of strings. -/
def joinSpStr (l : List String) : String :=
  String.mk (joinSp (l.map String.data))

theorem splitSp_ne_nil : ∀ l : List Char, splitSp l ≠ [] := by
  intro l
  induction l with
  | nil => simp [splitSp]
  | cons c rest ih =>
    by_cases h : c == ' '
    · simp [splitSp, h]
    · simp only [splitSp, h, Bool.false_eq_true, if_false]
      cases hs : splitSp rest with
      | nil => simp
      | cons t ts => simp

theorem splitSp_append (t : List Char) :
    ∀ s : List Char, splitSp (s ++ ' ' :: t) = splitSp s ++ splitSp t := by
  intro s
  induction s with
  | nil => simp [splitSp]
  | cons c cs ih =>
    by_cases h : c == ' '
    · show splitSp (c :: (cs ++ ' ' :: t)) = splitSp (c :: cs) ++ splitSp t
      simp only [splitSp, h, if_true]
      rw [ih]
      rfl
    · show splitSp (c :: (cs ++ ' ' :: t)) = splitSp (c :: cs) ++ splitSp t
      simp only [splitSp, h, Bool.false_eq_true, if_false]
      rw [ih]
      cases hs : splitSp cs with
      | nil => exact absurd hs (splitSp_ne_nil cs)
      | cons u us => simp

/-- The MOOD_KEYWORDS table (module-level dict; Python dict iteration is
insertion order, modeled as a list in source order). -/
def MOOD_KEYWORDS : List (String × List String) :=
  [("rainy afternoon", ["slice of life", "drama", "melancholy", "calm", "atmospheric", "emotional"]),
   ("epic fight scenes", ["action", "shounen", "martial arts", "superpowers", "battle", "tournament"]),
   ("wholesome and cozy", ["slice of life", "comedy", "iyashikei", "heartwarming", "friendship", "healing"]),
   ("mind-bending thriller", ["psychological", "thriller", "mystery", "suspense", "plot twist", "dark"]),
   ("action-packed adventure", ["action", "adventure", "fantasy", "isekai", "journey", "exploration"]),
   ("emotional and deep", ["drama", "tragedy", "romance", "psychological", "mature", "character development"]),
   ("high-budget pixel fights", ["action", "animation quality", "sakuga", "mecha", "sci-fi", "fantasy"]),
   ("romantic comedy", ["romance", "comedy", "school", "slice of life", "heartwarming", "love"]),
   ("dark and gritty", ["seinen", "dark", "psychological", "horror", "mature", "violence"]),
   ("nostalgic classic", ["classic", "retro", "90s", "80s", "influential", "legendary"])]

/-- Whether a mood phrase fires on a query: some word of the phrase occurs
as a substring of the lower-cased query (`any(word in query_lower for word
in mood.split())`). -/
def moodFires (mood : String) (query : String) : Bool :=
  (splitWords mood.data).any (fun w => isSubstrList w (query.data.map Char.toLower))

/-- `expand_mood_query` from the source: start from `[query]`, extend with
the keyword list of every mood phrase that fires, and space-join. -/
def expand_mood_query (query : String) : String :=
  let expanded_terms := MOOD_KEYWORDS.foldl
    (fun acc mk2 => if moodFires mk2.1 query then acc ++ mk2.2 else acc)
    [query]
  joinSpStr expanded_terms

theorem foldl_extend_filter {β γ : Type} (P : β → Bool) (f : β → List γ) :
    ∀ (l : List β) (init : List γ),
      l.foldl (fun acc b => if P b then acc ++ f b else acc) init
        = init ++ ((l.filter P).map f).flatten := by
  intro l
  induction l with
  | nil => intro init; simp
  | cons b bs ih =>
    intro init
    by_cases h : P b = true
    · simp only [List.foldl_cons, h, if_true, List.filter_cons, ih, List.map_cons,
        List.flatten, List.append_assoc]
    · simp only [List.foldl_cons, h, Bool.false_eq_true, if_false, List.filter_cons, ih]

/-- Closed form of `expand_mood_query`: the original query, then the keyword
sequences of the firing mood phrases in table order, space-joined. -/
theorem expand_mood_query_eq (query : String) :
    expand_mood_query query =
      joinSpStr (query ::
        ((MOOD_KEYWORDS.filter (fun p => moodFires p.1 query)).map (fun p => p.2)).flatten) := by
  unfold expand_mood_query
  rw [foldl_extend_filter]
  rfl

/-- Claim C6: for every query string, `expand_mood_query` returns the original
query followed, space-joined and in MOOD_KEYWORDS iteration order, by the full
keyword sequence of every mood phrase of which at least one single word occurs
(case-insensitively) as a substring of the lower-cased query; if no mood phrase
matches, the output equals the input query unchanged. -/
theorem expand_query_then_matched_keywords (query : String) :
    expand_mood_query query =
      joinSpStr (query ::
        ((MOOD_KEYWORDS.filter (fun p => moodFires p.1 query)).map (fun p => p.2)).flatten) ∧
    ((MOOD_KEYWORDS.all (fun p => !moodFires p.1 query)) = true →
      expand_mood_query query = query) := by
  refine ⟨expand_mood_query_eq query, ?_⟩
  intro hall
  have hfil : MOOD_KEYWORDS.filter (fun p => moodFires p.1 query) = [] := by
    rw [List.filter_eq_nil_iff]
    intro p hp
    have := List.all_eq_true.mp hall p hp
    simp at this
    simp [this]
  rw [expand_mood_query_eq query, hfil]
  rfl

/-- Witness for C6 at the no-match query "hello": no mood phrase fires and the
query comes back unchanged. -/
theorem expand_query_unchanged_witness : expand_mood_query "hello" = "hello" :=
  (expand_query_then_matched_keywords "hello").2 (by decide)

/-- Claim C8: expanding twice never loses tokens: every space-split token of
`expand_mood_query q` is a token of `expand_mood_query (expand_mood_query q)`. -/
theorem expand_twice_keeps_tokens (q : String) (tok : List Char)
    (h : tok ∈ splitSp (expand_mood_query q).data) :
    tok ∈ splitSp (expand_mood_query (expand_mood_query q)).data := by
  have he := expand_mood_query_eq (expand_mood_query q)
  cases hK : ((MOOD_KEYWORDS.filter
      (fun p => moodFires p.1 (expand_mood_query q))).map (fun p => p.2)).flatten with
  | nil =>
    rw [hK] at he
    have h2 : expand_mood_query (expand_mood_query q) = expand_mood_query q := by
      rw [he]; rfl
    rw [h2]
    exact h
  | cons k ks =>
    rw [hK] at he
    rw [he]
    have h3 : (joinSpStr (expand_mood_query q :: k :: ks)).data
        = (expand_mood_query q).data ++ ' ' :: joinSp ((k :: ks).map String.data) := rfl
    rw [h3, splitSp_append]
    exact List.mem_append_left _ h

/-- Witness for C8: the token "drama" produced by expanding "rainy" survives a
second expansion. -/
theorem expand_twice_keeps_tokens_witness :
    "drama".data ∈ splitSp (expand_mood_query (expand_mood_query "rainy")).data :=
  expand_twice_keeps_tokens "rainy" "drama".data (by decide)

/-! Similarity ranking (`search_by_mood`, lines 126-173). The similarity
vector `cosine_similarity(query_vector, tfidf_matrix).flatten()` enters as a
parameter `sims`; everything from `argsort` on is modeled from the source. -/

/-- Strict "comes earlier in the stable ascending argsort" order on row
indices: smaller similarity first, equal similarities in index order. -/
def argIdxBefore (sims : List ℚ) (i j : ℕ) : Bool :=
  decide (sims.getD i 0 < sims.getD j 0 ∨ (sims.getD i 0 = sims.getD j 0 ∧ i < j))

/-- `similarities.argsort()[::-1]`: stable ascending argsort of all row
indices, then reversal. -/
def topIndices (sims : List ℚ) : List ℕ :=
  (insSortBy (argIdxBefore sims) (List.range sims.length)).reverse

/-- One entry of the `search_by_mood` result list (the Python dict literal of
lines 162-169). -/
structure SearchResult where
  id : Int
  title : String
  genres : List String
  score : ℚ
  similarity : ℚ
  description : String
deriving Repr, DecidableEq

/-- Build the result dict for corpus row `idx`, including the 200-character
description truncation with ellipsis marker. -/
def mkSearchResult (data : List AnimeData) (sims : List ℚ) (idx : ℕ) : SearchResult :=
  let anime := data.getD idx default
  { id := anime.id
    title := anime.title
    genres := anime.genres
    score := anime.score
    similarity := sims.getD idx 0
    description :=
      if 200 < anime.description.data.length then
        String.mk (anime.description.data.take 200) ++ "..."
      else anime.description }

/-- The `for idx in top_indices` loop of `search_by_mood`: filter by
`min_score`, append, and break once `len(results) >= limit`. -/
def searchLoop (data : List AnimeData) (sims : List ℚ) (limit : Int) (min_score : ℚ) :
    List ℕ → List SearchResult → List SearchResult
  | [], results => results
  | idx :: rest, results =>
    if min_score ≤ (data.getD idx default).score then
      let results2 := results ++ [mkSearchResult data sims idx]
      if limit ≤ (results2.length : Int) then results2
      else searchLoop data sims limit min_score rest results2
    else searchLoop data sims limit min_score rest results

/-- `search_by_mood` after the similarity computation: scan the reversed
argsort order collecting results. -/
def search_by_mood (data : List AnimeData) (sims : List ℚ) (limit : Int) (min_score : ℚ) :
    List SearchResult :=
  searchLoop data sims limit min_score (topIndices sims) []

theorem argIdxBefore_asymm (sims : List ℚ) :
    ∀ i j, argIdxBefore sims i j = true → argIdxBefore sims j i = false := by
  intro i j h
  simp only [argIdxBefore, decide_eq_true_eq] at h
  simp only [argIdxBefore, decide_eq_false_iff_not]
  rcases h with hlt | ⟨heq, hij⟩
  · rintro (hlt2 | ⟨heq2, _⟩)
    · exact absurd (lt_trans hlt hlt2) (lt_irrefl _)
    · exact absurd heq2 (ne_of_gt hlt)
  · rintro (hlt2 | ⟨_, hji⟩)
    · exact absurd (heq ▸ hlt2) (lt_irrefl _)
    · exact absurd (lt_trans hij hji) (lt_irrefl _)

theorem argIdxBefore_htrans (sims : List ℚ) :
    ∀ a b c, argIdxBefore sims c a = false → argIdxBefore sims c b = true →
      argIdxBefore sims a b = true := by
  intro a b c h1 h2
  simp only [argIdxBefore, decide_eq_false_iff_not] at h1
  simp only [argIdxBefore, decide_eq_true_eq] at h2
  simp only [argIdxBefore, decide_eq_true_eq]
  push_neg at h1
  obtain ⟨hle, himp⟩ := h1
  rcases h2 with hlt | ⟨heq, hcb⟩
  · exact Or.inl (lt_of_le_of_lt hle hlt)
  · rcases lt_or_eq_of_le hle with hlt2 | heq2
    · exact Or.inl (heq ▸ hlt2)
    · exact Or.inr ⟨heq2.trans heq, lt_of_le_of_lt (himp heq2.symm) hcb⟩

theorem topIndices_perm (sims : List ℚ) :
    List.Perm (topIndices sims) (List.range sims.length) :=
  List.Perm.trans (List.reverse_perm _) (insSortBy_perm _ _)

/-- The scan order of `search_by_mood`: similarity strictly descending, and
equal similarities in strictly decreasing index order (the reversal of the
stable ascending argsort flips ties). -/
theorem topIndices_pairwise (sims : List ℚ) :
    (topIndices sims).Pairwise (fun i j =>
      sims.getD j 0 < sims.getD i 0 ∨ (sims.getD j 0 = sims.getD i 0 ∧ j < i)) := by
  have hs := insSortBy_pairwise (argIdxBefore sims) (argIdxBefore_asymm sims)
    (argIdxBefore_htrans sims) (List.range sims.length)
  have hnd : (insSortBy (argIdxBefore sims) (List.range sims.length)).Pairwise (· ≠ ·) :=
    ((insSortBy_perm (argIdxBefore sims) (List.range sims.length)).nodup_iff).mpr
      (List.nodup_range _)
  have hcomb : (insSortBy (argIdxBefore sims) (List.range sims.length)).Pairwise
      (fun i j => sims.getD i 0 < sims.getD j 0 ∨ (sims.getD i 0 = sims.getD j 0 ∧ i < j)) := by
    refine (hs.and hnd).imp ?_
    rintro i j ⟨hf, hne⟩
    simp only [argIdxBefore, decide_eq_false_iff_not] at hf
    push_neg at hf
    obtain ⟨hle, himp⟩ := hf
    rcases lt_or_eq_of_le hle with hlt | heq
    · exact Or.inl hlt
    · exact Or.inr ⟨heq, lt_of_le_of_ne (himp heq.symm) hne⟩
  rw [topIndices, List.pairwise_reverse]
  exact hcomb

/-- Acceptance test of the scan loop: corpus row `i` passes the score filter. -/
def acceptRow (data : List AnimeData) (min_score : ℚ) (i : ℕ) : Bool :=
  decide (min_score ≤ (data.getD i default).score)

theorem searchLoop_scores (data : List AnimeData) (sims : List ℚ) (limit : Int)
    (min_score : ℚ) :
    ∀ (l : List ℕ) (acc : List SearchResult),
      (∀ r ∈ acc, min_score ≤ r.score) →
      ∀ r ∈ searchLoop data sims limit min_score l acc, min_score ≤ r.score := by
  intro l
  induction l with
  | nil =>
    intro acc hacc
    simpa [searchLoop] using hacc
  | cons idx rest ih =>
    intro acc hacc r hr
    by_cases h : min_score ≤ (data.getD idx default).score
    · simp only [searchLoop, if_pos h] at hr
      have hacc2 : ∀ r2 ∈ acc ++ [mkSearchResult data sims idx], min_score ≤ r2.score := by
        intro r2 hr2
        rcases List.mem_append.mp hr2 with h3 | h3
        · exact hacc r2 h3
        · rw [List.mem_singleton] at h3
          rw [h3]
          exact h
      by_cases h2 : limit ≤ ((acc ++ [mkSearchResult data sims idx]).length : Int)
      · rw [if_pos h2] at hr
        exact hacc2 r hr
      · rw [if_neg h2] at hr
        exact ih _ hacc2 r hr
    · simp only [searchLoop, if_neg h] at hr
      exact ih acc hacc r hr

theorem searchLoop_length_of_pos (data : List AnimeData) (sims : List ℚ)
    (min_score : ℚ) (limit : Int) (hlim : 0 < limit) :
    ∀ (l : List ℕ) (acc : List SearchResult), acc.length < limit.toNat →
      (searchLoop data sims limit min_score l acc).length =
        min limit.toNat (acc.length + l.countP (acceptRow data min_score)) := by
  intro l
  induction l with
  | nil =>
    intro acc hacc
    simp [searchLoop, Nat.min_eq_right (le_of_lt hacc)]
  | cons idx rest ih =>
    intro acc hacc
    by_cases h : min_score ≤ (data.getD idx default).score
    · have ha : acceptRow data min_score idx = true := by
        simp only [acceptRow, decide_eq_true_eq]
        exact h
      have hcnt : List.countP (acceptRow data min_score) (idx :: rest)
          = List.countP (acceptRow data min_score) rest + 1 := by
        simp [List.countP_cons, ha]
      by_cases h2 : limit ≤ ((acc ++ [mkSearchResult data sims idx]).length : Int)
      · simp only [searchLoop, if_pos h, if_pos h2]
        have h2n : (limit : Int) ≤ (acc.length : Int) + 1 := by
          simpa using h2
        have hlen : acc.length + 1 = limit.toNat := by omega
        rw [hcnt]
        simp only [List.length_append, List.length_singleton]
        omega
      · simp only [searchLoop, if_pos h, if_neg h2]
        have h2n : ¬ ((limit : Int) ≤ (acc.length : Int) + 1) := by
          simpa using h2
        have hlt : (acc ++ [mkSearchResult data sims idx]).length < limit.toNat := by
          simp only [List.length_append, List.length_singleton]
          omega
        rw [ih _ hlt, hcnt]
        simp only [List.length_append, List.length_singleton]
        omega
    · have ha : acceptRow data min_score idx = false := by
        simp only [acceptRow, decide_eq_false_iff_not]
        exact h
      simp only [searchLoop, if_neg h]
      rw [ih _ hacc]
      have hcnt : List.countP (acceptRow data min_score) (idx :: rest)
          = List.countP (acceptRow data min_score) rest := by
        simp [List.countP_cons, ha]
      rw [hcnt]

theorem searchLoop_length_of_nonpos (data : List AnimeData) (sims : List ℚ)
    (min_score : ℚ) (limit : Int) (hlim : limit ≤ 0) :
    ∀ (l : List ℕ) (acc : List SearchResult),
      (searchLoop data sims limit min_score l acc).length =
        acc.length + min 1 (l.countP (acceptRow data min_score)) := by
  intro l
  induction l with
  | nil =>
    intro acc
    simp [searchLoop]
  | cons idx rest ih =>
    intro acc
    by_cases h : min_score ≤ (data.getD idx default).score
    · have h2 : limit ≤ (((acc ++ [mkSearchResult data sims idx]).length : ℕ) : Int) := by
        have : (0 : Int) ≤ ((acc ++ [mkSearchResult data sims idx]).length : ℕ) :=
          Int.ofNat_nonneg _
        omega
      have ha : acceptRow data min_score idx = true := by
        simp only [acceptRow, decide_eq_true_eq]
        exact h
      simp only [searchLoop, if_pos h, if_pos h2]
      have hcnt : List.countP (acceptRow data min_score) (idx :: rest)
          = List.countP (acceptRow data min_score) rest + 1 := by
        simp [List.countP_cons, ha]
      rw [hcnt]
      simp only [List.length_append, List.length_singleton]
      omega
    · have ha : acceptRow data min_score idx = false := by
        simp only [acceptRow, decide_eq_false_iff_not]
        exact h
      simp only [searchLoop, if_neg h]
      rw [ih]
      have hcnt : List.countP (acceptRow data min_score) (idx :: rest)
          = List.countP (acceptRow data min_score) rest := by
        simp [List.countP_cons, ha]
      rw [hcnt]

theorem searchLoop_scan_order (data : List AnimeData) (sims : List ℚ) (limit : Int)
    (min_score : ℚ) :
    ∀ (l : List ℕ) (acc : List SearchResult), ∃ l2, List.Sublist l2 l ∧
      searchLoop data sims limit min_score l acc
        = acc ++ l2.map (mkSearchResult data sims) := by
  intro l
  induction l with
  | nil =>
    intro acc
    exact ⟨[], List.Sublist.refl [], by simp [searchLoop]⟩
  | cons idx rest ih =>
    intro acc
    by_cases h : min_score ≤ (data.getD idx default).score
    · by_cases h2 : limit ≤ ((acc ++ [mkSearchResult data sims idx]).length : Int)
      · refine ⟨[idx], List.Sublist.cons₂ idx (List.nil_sublist rest), ?_⟩
        simp only [searchLoop, if_pos h, if_pos h2, List.map_cons, List.map_nil]
      · obtain ⟨l2, hsub, heq⟩ := ih (acc ++ [mkSearchResult data sims idx])
        refine ⟨idx :: l2, List.Sublist.cons₂ idx hsub, ?_⟩
        simp only [searchLoop, if_pos h, if_neg h2, heq, List.map_cons, List.append_assoc,
          List.singleton_append]
    · obtain ⟨l2, hsub, heq⟩ := ih acc
      refine ⟨l2, List.Sublist.cons idx hsub, ?_⟩
      simp only [searchLoop, if_neg h, heq]

theorem map_getD_range {α : Type} (d : α) :
    ∀ l : List α, (List.range l.length).map (fun i => l.getD i d) = l := by
  intro l
  induction l with
  | nil => rfl
  | cons a as ih =>
    rw [List.length_cons, List.range_succ_eq_map, List.map_cons, List.map_map]
    have h2 : ((fun i => (a :: as).getD i d) ∘ Nat.succ) = (fun i => as.getD i d) := by
      funext i
      rfl
    rw [h2, ih]
    rfl

theorem countP_range_getD {α : Type} (d : α) (p : α → Bool) (l : List α) :
    (List.range l.length).countP (fun i => p (l.getD i d)) = l.countP p := by
  conv_rhs => rw [← map_getD_range d l]
  rw [List.countP_map]
  rfl

/-- Transport the acceptance count from the scan order back to the corpus:
when the similarity vector has one entry per corpus row, the number of scanned
rows passing the score filter is the number of corpus items passing it. -/
theorem countP_topIndices (data : List AnimeData) (sims : List ℚ) (min_score : ℚ)
    (hlen : sims.length = data.length) :
    (topIndices sims).countP (acceptRow data min_score)
      = data.countP (fun a => decide (min_score ≤ a.score)) := by
  rw [(topIndices_perm sims).countP_eq, hlen]
  have h := countP_range_getD (default : AnimeData) (fun a => decide (min_score ≤ a.score)) data
  rw [← h]
  rfl

/-- Claim C1 (amended): `search_by_mood` considers all corpus rows (the scan
order is a permutation of the row indices of the similarity vector), sorted by
similarity descending — but rows with equal similarity are scanned in REVERSE
corpus order, not original order: `argsort()` (stable, ascending) is reversed
wholesale by `[::-1]`, which flips ties. The output lists the accepted rows in
that scan order (it is the image of a subsequence of the scan order). -/
theorem search_by_mood_sorted_ties_reversed (data : List AnimeData) (sims : List ℚ)
    (limit : Int) (min_score : ℚ) :
    List.Perm (topIndices sims) (List.range sims.length) ∧
    (topIndices sims).Pairwise (fun i j =>
      sims.getD j 0 < sims.getD i 0 ∨ (sims.getD j 0 = sims.getD i 0 ∧ j < i)) ∧
    ∃ l2, List.Sublist l2 (topIndices sims) ∧
      search_by_mood data sims limit min_score = l2.map (mkSearchResult data sims) := by
  refine ⟨topIndices_perm sims, topIndices_pairwise sims, ?_⟩
  obtain ⟨l2, hsub, heq⟩ := searchLoop_scan_order data sims limit min_score (topIndices sims) []
  exact ⟨l2, hsub, by simpa using heq⟩

/-- Counterexample to claim C1 as stated: two corpus rows with equal
similarity come back in reverse corpus order. With corpus ids [1, 2] and the
tied similarity vector [1, 1], the output is [2, 1], not the corpus order
[1, 2]. -/
theorem search_by_mood_tie_corpus_order_fails :
    ((search_by_mood
        [{ id := 1, title := "A", description := "", genres := [], tags := [],
           score := 0, popularity := 0 },
         { id := 2, title := "B", description := "", genres := [], tags := [],
           score := 0, popularity := 0 }]
        [1, 1] 10 0).map (fun r => r.id)) = [2, 1] ∧
    ((search_by_mood
        [{ id := 1, title := "A", description := "", genres := [], tags := [],
           score := 0, popularity := 0 },
         { id := 2, title := "B", description := "", genres := [], tags := [],
           score := 0, popularity := 0 }]
        [1, 1] 10 0).map (fun r => r.id)) ≠ [1, 2] := by
  constructor
  · decide
  · decide

/-- Claim C2: with a positive limit and one similarity entry per corpus row,
the `search_by_mood` output has length at most `limit`, every returned result
passes the score filter, and the limit counts accepted post-filter items (the
length is exactly the minimum of `limit` and the number of corpus items whose
score passes the filter, independent of how many rows are scanned). -/
theorem search_by_mood_limit_and_min_score (data : List AnimeData) (sims : List ℚ)
    (limit : Int) (min_score : ℚ) (hlim : 0 < limit) (hlen : sims.length = data.length) :
    (search_by_mood data sims limit min_score).length ≤ limit.toNat ∧
    (search_by_mood data sims limit min_score).length =
      min limit.toNat (data.countP (fun a => decide (min_score ≤ a.score))) ∧
    ∀ r ∈ search_by_mood data sims limit min_score, min_score ≤ r.score := by
  have h0 : (0 : ℕ) < limit.toNat := by omega
  have hL := searchLoop_length_of_pos data sims min_score limit hlim (topIndices sims) []
    (by simpa using h0)
  have hEq : (search_by_mood data sims limit min_score).length =
      min limit.toNat (data.countP (fun a => decide (min_score ≤ a.score))) := by
    rw [search_by_mood, hL, countP_topIndices data sims min_score hlen]
    simp
  refine ⟨?_, hEq, ?_⟩
  · rw [hEq]
    exact Nat.min_le_left _ _
  · intro r hr
    exact searchLoop_scores data sims limit min_score (topIndices sims) []
      (by intro r2 hr2; simp at hr2) r hr

/-- Witness for C2 at a one-item corpus with limit 1 and min_score 0. -/
theorem search_by_mood_limit_and_min_score_witness :
    (search_by_mood
        [{ id := 1, title := "A", description := "", genres := [], tags := [],
           score := 5, popularity := 0 }] [1] 1 0).length ≤ (1 : Int).toNat ∧
    (search_by_mood
        [{ id := 1, title := "A", description := "", genres := [], tags := [],
           score := 5, popularity := 0 }] [1] 1 0).length =
      min (1 : Int).toNat
        (List.countP (fun a : AnimeData => decide ((0 : ℚ) ≤ a.score))
          [{ id := 1, title := "A", description := "", genres := [], tags := [],
             score := 5, popularity := 0 }]) ∧
    ∀ r ∈ search_by_mood
        [{ id := 1, title := "A", description := "", genres := [], tags := [],
           score := 5, popularity := 0 }] [1] 1 0, (0 : ℚ) ≤ r.score :=
  search_by_mood_limit_and_min_score
    [{ id := 1, title := "A", description := "", genres := [], tags := [],
       score := 5, popularity := 0 }] [1] 1 0 (by decide) (by decide)

/-- Claim C9: with a non-positive limit, `search_by_mood` still returns exactly
one result as soon as some corpus item passes the score filter — the break test
`len(results) >= limit` runs only after an append. -/
theorem search_by_mood_nonpositive_limit (data : List AnimeData) (sims : List ℚ)
    (limit : Int) (min_score : ℚ) (hlim : limit ≤ 0) (hlen : sims.length = data.length)
    (hex : ∃ a ∈ data, min_score ≤ a.score) :
    (search_by_mood data sims limit min_score).length = 1 := by
  have hL := searchLoop_length_of_nonpos data sims min_score limit hlim (topIndices sims) []
  rw [search_by_mood, hL]
  have hcnt : 0 < (topIndices sims).countP (acceptRow data min_score) := by
    rw [countP_topIndices data sims min_score hlen]
    rw [List.countP_pos_iff]
    obtain ⟨a, ha, hsc⟩ := hex
    exact ⟨a, ha, by simpa using hsc⟩
  simp only [List.length_nil, Nat.zero_add]
  omega

/-- Witness for C9: one passing item, limit 0, output length 1. -/
theorem search_by_mood_nonpositive_limit_witness :
    (search_by_mood
        [{ id := 1, title := "A", description := "", genres := [], tags := [],
           score := 5, popularity := 0 }] [1] 0 0).length = 1 :=
  search_by_mood_nonpositive_limit
    [{ id := 1, title := "A", description := "", genres := [], tags := [],
       score := 5, popularity := 0 }] [1] 0 0 (by decide) (by decide)
    ⟨{ id := 1, title := "A", description := "", genres := [], tags := [],
       score := 5, popularity := 0 }, by decide, by decide⟩

/-! Item-to-item similarity (`find_similar_anime`, lines 175-212). The cosine
similarity of the looked-up row against the whole matrix enters as a function
`simRow` from the row index to its similarity vector. -/

/-- One entry of the `find_similar_anime` result list (lines 204-210: same
fields as a mood-search result but without the description). -/
structure SimilarResult where
  id : Int
  title : String
  genres : List String
  score : ℚ
  similarity : ℚ
deriving Repr, DecidableEq

/-- The `for idx, anime in enumerate(self.anime_data)` lookup loop with break
(lines 185-189): position of the first catalog item with the given id. -/
def findAnimeIdx (anime_id : Int) : List AnimeData → ℕ → Option ℕ
  | [], _ => none
  | a :: rest, i => if a.id == anime_id then some i else findAnimeIdx anime_id rest (i + 1)

/-- Build the result dict for corpus row `idx` of `find_similar_anime`. -/
def mkSimilarResult (data : List AnimeData) (sims : List ℚ) (idx : ℕ) : SimilarResult :=
  let anime := data.getD idx default
  { id := anime.id
    title := anime.title
    genres := anime.genres
    score := anime.score
    similarity := sims.getD idx 0 }

/-- `find_similar_anime` after the untrained-state check: locate the item's
row, rank all rows by `argsort()[::-1]`, slice `[1:limit+1]`, and build the
result dicts. -/
def find_similar_anime (data : List AnimeData) (simRow : ℕ → List ℚ)
    (anime_id : Int) (limit : Int) : List SimilarResult :=
  match findAnimeIdx anime_id data 0 with
  | none => []
  | some anime_idx =>
    let similarities := simRow anime_idx
    (((topIndices similarities).drop 1).take limit.toNat).map
      (mkSimilarResult data similarities)

theorem findAnimeIdx_eq_none (anime_id : Int) :
    ∀ (l : List AnimeData) (i : ℕ), (∀ a ∈ l, a.id ≠ anime_id) →
      findAnimeIdx anime_id l i = none := by
  intro l
  induction l with
  | nil => intro i _; rfl
  | cons a rest ih =>
    intro i habs
    have ha : (a.id == anime_id) = false := by
      simp only [beq_eq_false_iff_ne, ne_eq]
      exact habs a (List.mem_cons_self a rest)
    simp only [findAnimeIdx, ha, Bool.false_eq_true, if_false]
    exact ih (i + 1) (fun b hb => habs b (List.mem_cons_of_mem a hb))

/-! Engine state and the stateful operations (`AnimeRecommendationEngine`).
The fitted TF-IDF matrix is an opaque numeric object, modeled as a rational
matrix; the fitted vectorizer state is modeled by its frozen vocabulary. -/

/-- Mutable state of `AnimeRecommendationEngine`: the loaded corpus, the
fitted TF-IDF matrix (None before training), the KMeans state (None before
training) and the vectorizer's fitted vocabulary (None before fitting). -/
structure Engine where
  anime_data : List AnimeData
  tfidf_matrix : Option (List (List ℚ))
  kmeans : Option (List ℕ)
  vectorizer_vocab : Option (List String)
deriving Repr, DecidableEq

/-- One raw catalog record handed to `load_anime_data`: a dict whose fields
may all be absent (`anime.get(key, default)`). -/
structure AnimeRecord where
  id? : Option Int
  title? : Option String
  description? : Option String
  genres? : Option (List String)
  tags? : Option (List String)
  score? : Option ℚ
  popularity? : Option Int
deriving Repr, DecidableEq

/-- The per-record mapping of `load_anime_data` (lines 59-70): every missing
field falls back to its documented default. -/
def recordToAnime (r : AnimeRecord) : AnimeData :=
  { id := r.id?.getD 0
    title := r.title?.getD ""
    description := r.description?.getD ""
    genres := r.genres?.getD []
    tags := r.tags?.getD []
    score := r.score?.getD 0
    popularity := r.popularity?.getD 0 }

/-- `load_anime_data`: replace the stored catalog, touching nothing else. -/
def load_anime_data (e : Engine) (anime_list : List AnimeRecord) : Engine :=
  { e with anime_data := anime_list.map recordToAnime }

/-- `AnimeData.to_text` (line 40-42): title, description, joined genres and
joined tags, space-separated. -/
def AnimeData.to_text (a : AnimeData) : String :=
  a.title ++ " " ++ a.description ++ " " ++ joinSpStr a.genres ++ " " ++ joinSpStr a.tags

/-- `train` (lines 72-87). The external fitting collaborators enter as
parameters: `fitTransform` is `TfidfVectorizer.fit_transform` (returning the
fitted vocabulary and the document-term matrix), `fitKMeans` is
`KMeans(...).fit`. An empty corpus raises before any state is assigned, which
is modeled by returning `Except.error` with the state untouched. -/
def train (fitTransform : List String → List String × List (List ℚ))
    (fitKMeans : List (List ℚ) → ℕ → List ℕ) (e : Engine) : Except String Engine :=
  if e.anime_data.isEmpty then
    Except.error "No anime data loaded. Call load_anime_data first."
  else
    let corpus := e.anime_data.map AnimeData.to_text
    let fitted := fitTransform corpus
    let n_clusters := min 50 (e.anime_data.length / 10)
    Except.ok { e with
      vectorizer_vocab := some fitted.1
      tfidf_matrix := some fitted.2
      kmeans := if 1 < n_clusters then some (fitKMeans fitted.2 n_clusters) else e.kmeans }

/-- The engine state after a `train` call, under Python exception semantics:
an error leaves the object exactly as it was. -/
def applyTrain (fitTransform : List String → List String × List (List ℚ))
    (fitKMeans : List (List ℚ) → ℕ → List ℕ) (e : Engine) : Engine :=
  match train fitTransform fitKMeans e with
  | Except.ok e2 => e2
  | Except.error _ => e

/-- `search_by_mood` at the engine level (lines 143-153): untrained-state
check, query expansion, then ranking. The vectorize-and-cosine collaborator
enters as `cos`, reading the fitted vocabulary and matrix from the state. -/
def engine_search_by_mood
    (cos : Option (List String) → List (List ℚ) → String → List ℚ)
    (e : Engine) (query : String) (limit : Int) (min_score : ℚ) :
    Except String (List SearchResult) :=
  match e.tfidf_matrix with
  | none => Except.error "Model not trained. Call train() first."
  | some M =>
    Except.ok (search_by_mood e.anime_data
      (cos e.vectorizer_vocab M (expand_mood_query query)) limit min_score)

/-- `find_similar_anime` at the engine level (lines 181-196): untrained-state
check, then lookup and ranking. `simRowOf` is the cosine-similarity
collaborator, producing the similarity vector of a matrix row against the
whole matrix. -/
def engine_find_similar_anime (simRowOf : List (List ℚ) → ℕ → List ℚ)
    (e : Engine) (anime_id : Int) (limit : Int) : Except String (List SimilarResult) :=
  match e.tfidf_matrix with
  | none => Except.error "Model not trained. Call train() first."
  | some M => Except.ok (find_similar_anime e.anime_data (simRowOf M) anime_id limit)

/-- Claim C5: on a fitted index, an item id that matches no catalog item makes
`find_similar_anime` return an empty list, not an error. -/
theorem find_similar_anime_unknown_id (simRowOf : List (List ℚ) → ℕ → List ℚ)
    (e : Engine) (anime_id : Int) (limit : Int)
    (hM : e.tfidf_matrix.isSome = true)
    (habs : ∀ a ∈ e.anime_data, a.id ≠ anime_id) :
    engine_find_similar_anime simRowOf e anime_id limit = Except.ok [] := by
  obtain ⟨M, hM2⟩ := Option.isSome_iff_exists.mp hM
  simp only [engine_find_similar_anime, hM2, find_similar_anime,
    findAnimeIdx_eq_none anime_id e.anime_data 0 habs]

/-- Witness for C5: a one-item trained engine queried with an absent id. -/
theorem find_similar_anime_unknown_id_witness :
    engine_find_similar_anime (fun _ _ => [])
      { anime_data := [{ id := 1, title := "A", description := "", genres := [],
                         tags := [], score := 0, popularity := 0 }]
        tfidf_matrix := some [[1]]
        kmeans := none
        vectorizer_vocab := none } 2 10 = Except.ok [] :=
  find_similar_anime_unknown_id (fun _ _ => [])
    { anime_data := [{ id := 1, title := "A", description := "", genres := [],
                       tags := [], score := 0, popularity := 0 }]
      tfidf_matrix := some [[1]]
      kmeans := none
      vectorizer_vocab := none } 2 10 (by decide) (by decide)

/-- Claim C4 fails on the code: `find_similar_anime` drops the rank-0 entry of
`argsort()[::-1]` instead of the queried item's own row. When another corpus
row ties with the self-similarity (two items with identical vectors, so the
looked-up row's similarity vector is [1, 1]), the reversal of the stable
ascending argsort scans the OTHER row first; slicing `[1:limit+1]` then drops
that other row and returns the queried item itself. Here: corpus ids [1, 2],
query id 1, limit 1 — the single result is item 1 itself. -/
theorem find_similar_anime_returns_self_on_tie :
    ((find_similar_anime
        [{ id := 1, title := "A", description := "", genres := [], tags := [],
           score := 0, popularity := 0 },
         { id := 2, title := "B", description := "", genres := [], tags := [],
           score := 0, popularity := 0 }]
        (fun _ => [1, 1]) 1 1).map (fun r => r.id)) = [1] := by
  decide

/-- Claim C7: calling `train` on an engine with no loaded catalog records
fails with the untrained-state error, and no matrix state is created — under
Python exception semantics the engine state, and in particular the
fitted-matrix field, is exactly what it was before the call. -/
theorem train_empty_corpus (fitTransform : List String → List String × List (List ℚ))
    (fitKMeans : List (List ℚ) → ℕ → List ℕ) (e : Engine)
    (h : e.anime_data = []) :
    train fitTransform fitKMeans e
      = Except.error "No anime data loaded. Call load_anime_data first." ∧
    applyTrain fitTransform fitKMeans e = e ∧
    (applyTrain fitTransform fitKMeans e).tfidf_matrix = e.tfidf_matrix := by
  have hE : train fitTransform fitKMeans e
      = Except.error "No anime data loaded. Call load_anime_data first." := by
    rw [train, if_pos]
    rw [h]
    rfl
  refine ⟨hE, ?_, ?_⟩
  · rw [applyTrain, hE]
  · rw [applyTrain, hE]

/-- Witness for C7: a freshly constructed engine with an empty corpus. -/
theorem train_empty_corpus_witness :
    train (fun _ => ([], [])) (fun _ _ => [])
        { anime_data := [], tfidf_matrix := none, kmeans := none,
          vectorizer_vocab := none }
      = Except.error "No anime data loaded. Call load_anime_data first." ∧
    applyTrain (fun _ => ([], [])) (fun _ _ => [])
        { anime_data := [], tfidf_matrix := none, kmeans := none,
          vectorizer_vocab := none }
      = { anime_data := [], tfidf_matrix := none, kmeans := none,
          vectorizer_vocab := none } ∧
    (applyTrain (fun _ => ([], [])) (fun _ _ => [])
        { anime_data := [], tfidf_matrix := none, kmeans := none,
          vectorizer_vocab := none }).tfidf_matrix
      = ({ anime_data := [], tfidf_matrix := none, kmeans := none,
           vectorizer_vocab := none } : Engine).tfidf_matrix :=
  train_empty_corpus (fun _ => ([], [])) (fun _ _ => [])
    { anime_data := [], tfidf_matrix := none, kmeans := none,
      vectorizer_vocab := none } rfl

/-- Claim C10: `load_anime_data` replaces only the stored catalog; the fitted
matrix, the vectorizer's fitted vocabulary and the cluster state are
untouched, so a subsequent mood search (without retraining) ranks the NEW
catalog against the OLD matrix and vocabulary. -/
theorem load_anime_data_frame (e : Engine) (l : List AnimeRecord)
    (cos : Option (List String) → List (List ℚ) → String → List ℚ)
    (query : String) (limit : Int) (min_score : ℚ) (M : List (List ℚ))
    (hM : e.tfidf_matrix = some M) :
    (load_anime_data e l).tfidf_matrix = e.tfidf_matrix ∧
    (load_anime_data e l).vectorizer_vocab = e.vectorizer_vocab ∧
    (load_anime_data e l).kmeans = e.kmeans ∧
    (load_anime_data e l).anime_data = l.map recordToAnime ∧
    engine_search_by_mood cos (load_anime_data e l) query limit min_score =
      Except.ok (search_by_mood (l.map recordToAnime)
        (cos e.vectorizer_vocab M (expand_mood_query query)) limit min_score) := by
  refine ⟨rfl, rfl, rfl, rfl, ?_⟩
  simp only [engine_search_by_mood, load_anime_data, hM]

/-- Witness for C10: a trained one-row engine reloaded with a fresh record;
the search runs against the old matrix paired with the new catalog. -/
theorem load_anime_data_frame_witness :
    (load_anime_data
        { anime_data := [], tfidf_matrix := some [[1]], kmeans := some [0],
          vectorizer_vocab := some ["x"] }
        [{ id? := some 7, title? := some "T", description? := none, genres? := none,
           tags? := none, score? := some 9, popularity? := none }]).tfidf_matrix
      = ({ anime_data := [], tfidf_matrix := some [[1]], kmeans := some [0],
           vectorizer_vocab := some ["x"] } : Engine).tfidf_matrix ∧
    (load_anime_data
        { anime_data := [], tfidf_matrix := some [[1]], kmeans := some [0],
          vectorizer_vocab := some ["x"] }
        [{ id? := some 7, title? := some "T", description? := none, genres? := none,
           tags? := none, score? := some 9, popularity? := none }]).vectorizer_vocab
      = ({ anime_data := [], tfidf_matrix := some [[1]], kmeans := some [0],
           vectorizer_vocab := some ["x"] } : Engine).vectorizer_vocab ∧
    (load_anime_data
        { anime_data := [], tfidf_matrix := some [[1]], kmeans := some [0],
          vectorizer_vocab := some ["x"] }
        [{ id? := some 7, title? := some "T", description? := none, genres? := none,
           tags? := none, score? := some 9, popularity? := none }]).kmeans
      = ({ anime_data := [], tfidf_matrix := some [[1]], kmeans := some [0],
           vectorizer_vocab := some ["x"] } : Engine).kmeans ∧
    (load_anime_data
        { anime_data := [], tfidf_matrix := some [[1]], kmeans := some [0],
          vectorizer_vocab := some ["x"] }
        [{ id? := some 7, title? := some "T", description? := none, genres? := none,
           tags? := none, score? := some 9, popularity? := none }]).anime_data
      = [{ id? := some 7, title? := some "T", description? := none, genres? := none,
           tags? := none, score? := some 9, popularity? := none }].map recordToAnime ∧
    engine_search_by_mood (fun _ _ _ => [1])
        (load_anime_data
          { anime_data := [], tfidf_matrix := some [[1]], kmeans := some [0],
            vectorizer_vocab := some ["x"] }
          [{ id? := some 7, title? := some "T", description? := none, genres? := none,
             tags? := none, score? := some 9, popularity? := none }]) "q" 1 0
      = Except.ok (search_by_mood
          ([{ id? := some 7, title? := some "T", description? := none, genres? := none,
              tags? := none, score? := some 9, popularity? := none }].map recordToAnime)
          ((fun _ _ _ => [1]) (some ["x"]) [[1]] (expand_mood_query "q")) 1 0) :=
  load_anime_data_frame
    { anime_data := [], tfidf_matrix := some [[1]], kmeans := some [0],
      vectorizer_vocab := some ["x"] }
    [{ id? := some 7, title? := some "T", description? := none, genres? := none,
       tags? := none, score? := some 9, popularity? := none }]
    (fun _ _ _ => [1]) "q" 1 0 [[1]] rfl

/-! Watchlist party matching (`party_match`, lines 214-253). Watchlists are
converted to sets (`set(...)`), modeled as finite sets of ids. -/

/-- One entry of the `party_match` result list (lines 244-249). The Python
code materializes the intersection as a list in set-iteration order; it is
modeled as the intersection set itself. -/
structure MatchResult where
  user_id : Int
  compatibility : ℚ
  shared_anime : Finset Int
  shared_count : ℕ
deriving DecidableEq

/-- The stable descending comparison used on matches: `a` must stay strictly
before `b` exactly when its compatibility is strictly greater. -/
def compatBefore (a b : MatchResult) : Bool :=
  decide (b.compatibility < a.compatibility)

/-- The candidate loop of `party_match` (lines 234-249): for each other user,
compute the Jaccard ratio and keep the candidate when the union is non-empty
and the ratio reaches `min_overlap`. -/
def partyCandidates (user_set : Finset Int) (other_users : List (Int × List Int))
    (min_overlap : ℚ) : List MatchResult :=
  other_users.filterMap (fun other =>
    let other_set := other.2.toFinset
    let intersection := (user_set ∩ other_set).card
    let union := (user_set ∪ other_set).card
    if 0 < union then
      if min_overlap ≤ (intersection : ℚ) / (union : ℚ) then
        some { user_id := other.1
               compatibility := (intersection : ℚ) / (union : ℚ)
               shared_anime := user_set ∩ other_set
               shared_count := intersection }
      else none
    else none)

/-- `party_match`: build the match list in input order, then sort by
compatibility descending with Python's stable `list.sort`. -/
def party_match (user_watchlist : List Int) (other_users : List (Int × List Int))
    (min_overlap : ℚ) : List MatchResult :=
  insSortBy compatBefore (partyCandidates user_watchlist.toFinset other_users min_overlap)

/-- Jaccard similarity as the specification words it: `|intersection| /
|union|`, defined as 0 when the union is empty. -/
def jaccardSpec (A B : Finset Int) : ℚ :=
  if (A ∪ B).card = 0 then 0 else ((A ∩ B).card : ℚ) / ((A ∪ B).card : ℚ)

/-- The kept candidates as the specification words them: candidates whose
union with the target is non-empty (empty-vs-empty never matches) and whose
Jaccard similarity reaches `min_overlap`, each reported with its userId,
Jaccard value, intersection set and intersection cardinality, in input
order. -/
def keptSpec (target : Finset Int) (cands : List (Int × List Int))
    (min_overlap : ℚ) : List MatchResult :=
  cands.filterMap (fun c =>
    if (target ∪ c.2.toFinset).Nonempty ∧ min_overlap ≤ jaccardSpec target c.2.toFinset then
      some { user_id := c.1
             compatibility := jaccardSpec target c.2.toFinset
             shared_anime := target ∩ c.2.toFinset
             shared_count := (target ∩ c.2.toFinset).card }
    else none)

theorem partyCandidates_eq_keptSpec (target : Finset Int)
    (cands : List (Int × List Int)) (min_overlap : ℚ) :
    partyCandidates target cands min_overlap = keptSpec target cands min_overlap := by
  unfold partyCandidates keptSpec
  congr 1
  funext c
  by_cases hu : 0 < (target ∪ c.2.toFinset).card
  · have hne : (target ∪ c.2.toFinset).Nonempty := Finset.card_pos.mp hu
    have hj : jaccardSpec target c.2.toFinset
        = ((target ∩ c.2.toFinset).card : ℚ) / ((target ∪ c.2.toFinset).card : ℚ) := by
      rw [jaccardSpec, if_neg]
      omega
    by_cases hk : min_overlap ≤ ((target ∩ c.2.toFinset).card : ℚ) / ((target ∪ c.2.toFinset).card : ℚ)
    · rw [if_pos hu, if_pos hk, if_pos ⟨hne, by rw [hj]; exact hk⟩, hj]
    · rw [if_pos hu, if_neg hk, if_neg]
      rintro ⟨_, hk2⟩
      rw [hj] at hk2
      exact hk hk2
  · have hne : ¬ (target ∪ c.2.toFinset).Nonempty := by
      rw [← Finset.card_pos]
      exact hu
    rw [if_neg hu, if_neg]
    rintro ⟨h1, _⟩
    exact hne h1

theorem compatBefore_asymm :
    ∀ a b : MatchResult, compatBefore a b = true → compatBefore b a = false := by
  intro a b h
  simp only [compatBefore, decide_eq_true_eq] at h
  simp only [compatBefore, decide_eq_false_iff_not]
  exact not_lt_of_gt h

theorem compatBefore_htrans :
    ∀ a b c : MatchResult, compatBefore c a = false → compatBefore c b = true →
      compatBefore a b = true := by
  intro a b c h1 h2
  simp only [compatBefore, decide_eq_false_iff_not, not_lt] at h1
  simp only [compatBefore, decide_eq_true_eq] at h2 ⊢
  exact lt_of_lt_of_le h2 h1

/-- Claim C3: `party_match` keeps exactly the candidates the spec describes
(Jaccard = |intersection|/|union|, 0 on empty union so empty-vs-empty never
matches, kept when the ratio reaches `min_overlap`, reporting userId, the
Jaccard value, the intersection set and its cardinality): the output is a
permutation of that kept list, it is sorted by compatibility descending, and
for every compatibility value the results carrying it appear exactly in input
order (stability). -/
theorem party_match_spec (user_watchlist : List Int)
    (other_users : List (Int × List Int)) (min_overlap : ℚ) :
    List.Perm (party_match user_watchlist other_users min_overlap)
      (keptSpec user_watchlist.toFinset other_users min_overlap) ∧
    (party_match user_watchlist other_users min_overlap).Pairwise
      (fun a b => b.compatibility ≤ a.compatibility) ∧
    ∀ q : ℚ, (party_match user_watchlist other_users min_overlap).filter
        (fun r => r.compatibility == q)
      = (keptSpec user_watchlist.toFinset other_users min_overlap).filter
        (fun r => r.compatibility == q) := by
  refine ⟨?_, ?_, ?_⟩
  · rw [party_match, partyCandidates_eq_keptSpec]
    exact insSortBy_perm compatBefore _
  · have hp := insSortBy_pairwise compatBefore compatBefore_asymm compatBefore_htrans
      (partyCandidates user_watchlist.toFinset other_users min_overlap)
    rw [party_match]
    refine hp.imp ?_
    intro a b hf
    simp only [compatBefore, decide_eq_false_iff_not, not_lt] at hf
    exact hf
  · intro q
    rw [party_match, partyCandidates_eq_keptSpec]
    refine insSortBy_filter compatBefore (fun r => r.compatibility == q) ?_ _
    intro a b ha hb
    rw [beq_iff_eq] at ha hb
    simp only [compatBefore, decide_eq_false_iff_not, not_lt, ha, hb]
    exact le_refl q
